import Mathlib

/-!
Verification of the confidence-extraction and aggregation pipeline of
`fun_with_folding` (files `get_ipsae_AF3.py`, `boltz_ipsae_boltz2.py`,
`AF3_AB_iptm.py`).  File contents are modelled as lists of raw lines,
parsed documents as a Python-value tree, numbers as rationals, paths as
component lists, and the working directory plus the external scorer as an
explicit state.  Python exceptions are modelled with `Except`.
-/

namespace FunFolding

/-! ## Python string primitives -/

/-- Python `str.strip()`: remove leading and trailing whitespace. -/
def pyStrip (s : String) : String :=
  String.mk (((s.toList.dropWhile Char.isWhitespace).reverse.dropWhile
      Char.isWhitespace).reverse)

/-- Chunks of non-whitespace characters, in order (helper for `pySplit`).
    `acc` holds the current chunk reversed. -/
def wsChunksAux : List Char → List Char → List (List Char)
  | [], acc => if acc.isEmpty then [] else [acc.reverse]
  | c :: t, acc =>
    if c.isWhitespace then
      if acc.isEmpty then wsChunksAux t [] else acc.reverse :: wsChunksAux t []
    else wsChunksAux t (c :: acc)

/-- Python `str.split()` with no argument: split on whitespace runs,
    dropping empty pieces. -/
def pySplit (s : String) : List String :=
  (wsChunksAux s.toList []).map String.mk

/-- `p` occurs at the start of `s` (Python `str.startswith`). -/
def pyStartsWith (s p : String) : Bool :=
  p.toList.isPrefixOf s.toList

/-- Value of a list of decimal digit characters. -/
def digitsToNat (cs : List Char) : Nat :=
  cs.foldl (fun a c => a * 10 + (c.toNat - 48)) 0

/-- Exponent part of a float literal: empty, or `e`/`E`, optional sign,
    digits. Returns the signed exponent. -/
def pyFloatExp (cs : List Char) : Option Int :=
  match cs with
  | [] => some 0
  | e :: t =>
    if e = 'e' ∨ e = 'E' then
      let (sg, t2) : Int × List Char :=
        match t with
        | '+' :: r => (1, r)
        | '-' :: r => (-1, r)
        | _ => (1, t)
      let ds := t2.takeWhile Char.isDigit
      if ds.isEmpty ∨ ¬(t2.dropWhile Char.isDigit).isEmpty then none
      else some (sg * (digitsToNat ds : Int))
    else none

/-- Model of Python `float()` on the finite decimal literals occurring in
    scorer output: optional sign, digits with optional fraction, optional
    exponent, surrounded by optional whitespace.  Words such as `max` or
    `Type` do not parse.  (The special spellings `inf`/`nan` and underscore
    separators are outside the scorer-output grammar and are not modelled.)
    The value is assembled with `mkRat` so that it evaluates by kernel
    reduction. -/
def pyFloat (s : String) : Option ℚ :=
  let cs := (pyStrip s).toList
  let (neg, cs1) : Bool × List Char :=
    match cs with
    | '+' :: t => (false, t)
    | '-' :: t => (true, t)
    | _ => (false, cs)
  let ip := cs1.takeWhile Char.isDigit
  let rest := cs1.dropWhile Char.isDigit
  let mantissa : Option (Nat × Nat × List Char) :=
    match rest with
    | '.' :: rest2 =>
      let fp := rest2.takeWhile Char.isDigit
      if ip.isEmpty ∧ fp.isEmpty then none
      else some (digitsToNat (ip ++ fp), fp.length, rest2.dropWhile Char.isDigit)
    | _ => if ip.isEmpty then none else some (digitsToNat ip, 0, rest)
  match mantissa with
  | none => none
  | some (m, fl, rest3) =>
    match pyFloatExp rest3 with
    | none => none
    | some e =>
      let sm : Int := if neg then -(m : Int) else (m : Int)
      if 0 ≤ e then some (mkRat (sm * (10 : Int) ^ e.toNat) (10 ^ fl))
      else some (mkRat sm (10 ^ fl * 10 ^ (-e).toNat))

/-! ## Tabular parser of `get_ipsae_AF3.parse_ipsae_and_iptm` -/

/-- Errors raised by `parse_ipsae_and_iptm` (`ValueError` messages in the
    source; the one for a missing column names that column). -/
inductive ParseErr where
  | noData
  | missingColumn (name : String)
  | noValidValues
deriving DecidableEq

instance {ε α : Type} [DecidableEq ε] [DecidableEq α] : DecidableEq (Except ε α) :=
  fun x y =>
    match x, y with
    | .error a, .error b =>
      if h : a = b then .isTrue (by rw [h])
      else .isFalse (fun hc => h (Except.error.inj hc))
    | .ok a, .ok b =>
      if h : a = b then .isTrue (by rw [h])
      else .isFalse (fun hc => h (Except.ok.inj hc))
    | .error _, .ok _ => .isFalse (fun hc => Except.noConfusion hc)
    | .ok _, .error _ => .isFalse (fun hc => Except.noConfusion hc)

/-- Stripped, non-empty lines of the file
    (`[ln.strip() for ln in f if ln.strip()]`). -/
def cleanLines (content : List String) : List String :=
  (content.map pyStrip).filter (fun l => l ≠ "")

/-- Python `list.index` on the header: index of the first occurrence of a
    column name. -/
def findCol (header : List String) (name : String) : Option Nat :=
  header.findIdx? (fun c => c = name)

/-- Resolve the three required columns by name, in the source's order;
    the first missing one is a `missingColumn` error. -/
def headerIdx (header : List String) : Except ParseErr (Nat × Nat × Nat) :=
  match findCol header "ipSAE" with
  | none => .error (.missingColumn "ipSAE")
  | some i1 =>
    match findCol header "ipTM_af" with
    | none => .error (.missingColumn "ipTM_af")
    | some i2 =>
      match findCol header "Type" with
      | none => .error (.missingColumn "Type")
      | some it => .ok (i1, i2, it)

/-- Body of the first loop of `parse_ipsae_and_iptm` for one split row:
    skip short rows, require the type column to be `max`, require both
    values to parse. -/
def maxRowPair (i1 i2 it : Nat) (cols : List String) : Option (ℚ × ℚ) :=
  if cols.length ≤ max (max i1 i2) it then none
  else if cols.getD it "" = "max" then
    match pyFloat (cols.getD i1 ""), pyFloat (cols.getD i2 "") with
    | some s, some t => some (s, t)
    | _, _ => none
  else none

/-- First pass of `parse_ipsae_and_iptm`: return the first usable
    `max`-typed row. -/
def maxRowScan (i1 i2 it : Nat) (rows : List (List String)) : Option (ℚ × ℚ) :=
  rows.findSome? (maxRowPair i1 i2 it)

/-- Body of the fallback loop for one split row: skip short rows, require
    both values to parse. -/
def fallbackPair (i1 i2 : Nat) (cols : List String) : Option (ℚ × ℚ) :=
  if cols.length ≤ max i1 i2 then none
  else
    match pyFloat (cols.getD i1 ""), pyFloat (cols.getD i2 "") with
    | some s, some t => some (s, t)
    | _, _ => none

/-- One fallback-loop iteration on the running best pair. -/
def fbStep (i1 i2 : Nat) (best : Option (ℚ × ℚ)) (cols : List String) : Option (ℚ × ℚ) :=
  match fallbackPair i1 i2 cols with
  | none => best
  | some p =>
    match best with
    | none => some p
    | some b => if p.1 > b.1 then some p else some b

/-- Fallback pass of `parse_ipsae_and_iptm`: track the best row, replacing
    it only on a strictly larger ipSAE. -/
def fallbackScan (i1 i2 : Nat) (rows : List (List String)) : Option (ℚ × ℚ) :=
  rows.foldl (fbStep i1 i2) none

/-- `get_ipsae_AF3.parse_ipsae_and_iptm`, on the file's raw lines: header
    lookup by name, then the `max`-row pass, then the overall-max fallback. -/
def parse_ipsae_and_iptm (content : List String) : Except ParseErr (ℚ × ℚ) :=
  match cleanLines content with
  | [] => .error .noData
  | [_] => .error .noData
  | hd :: data =>
    match headerIdx (pySplit hd) with
    | .error e => .error e
    | .ok (i1, i2, it) =>
      let rows := data.map pySplit
      match maxRowScan i1 i2 it rows with
      | some st => .ok st
      | none =>
        match fallbackScan i1 i2 rows with
        | some st => .ok st
        | none => .error .noValidValues

/-! ## Tabular parser of `boltz_ipsae_boltz2.parse_ipsae_max` -/

/-- Loop body of `parse_ipsae_max` for one raw line: strip; skip blank
    lines and lines starting with `Chn1`; require at least 6 columns; the
    type is read at fixed index 4 and the value at fixed index 5. -/
def lineResultB (ln : String) : Option ℚ :=
  let line := pyStrip ln
  if line = "" then none
  else if pyStartsWith line "Chn1" then none
  else
    let cols := pySplit line
    if cols.length < 6 then none
    else if cols.getD 4 "" = "max" then pyFloat (cols.getD 5 "")
    else none

/-- `boltz_ipsae_boltz2.parse_ipsae_max`, on the file's raw lines: return
    the first line yielding a value, else nothing. -/
def parse_ipsae_max (content : List String) : Option ℚ :=
  content.findSome? lineResultB

/-! ## Specification-side views of the two scan passes -/

/-- The usable `max`-typed rows of a file, in order. -/
def maxRowHits (i1 i2 it : Nat) (rows : List (List String)) : List (ℚ × ℚ) :=
  rows.filterMap (maxRowPair i1 i2 it)

/-- The rows whose two value columns both parse, in order. -/
def fallbackPairs (i1 i2 : Nat) (rows : List (List String)) : List (ℚ × ℚ) :=
  rows.filterMap (fallbackPair i1 i2)

/-- The values yielded by the lines of a `boltz` scorer file, in order. -/
def lineHitsB (content : List String) : List ℚ :=
  content.filterMap lineResultB

/-- Left fold keeping the running best, replacing only on a strictly
    larger first component (so the earliest of the maxima is kept). -/
def firstMaxAux (b : ℚ × ℚ) : List (ℚ × ℚ) → ℚ × ℚ
  | [] => b
  | p :: ps => firstMaxAux (if p.1 > b.1 then p else b) ps

/-- The first pair attaining the maximal first component, if any. -/
def firstMax : List (ℚ × ℚ) → Option (ℚ × ℚ)
  | [] => none
  | p :: ps => some (firstMaxAux p ps)

/-- One step of the best-tracking fold, on the parsed pairs. -/
def bStep (best : Option (ℚ × ℚ)) (p : ℚ × ℚ) : Option (ℚ × ℚ) :=
  match best with
  | none => some p
  | some b => if p.1 > b.1 then some p else some b

/-! ## Natural sort keys (`natural_sort_key`, `natural_binder_sort_key`) -/

/-- Maximal runs of characters grouped by `Char.isDigit`; the flag records
    whether the run is a digit run.  `cur` is the current run, reversed. -/
def runsAux : List Char → Option (Bool × List Char) → List (Bool × List Char)
  | [], none => []
  | [], some (k, cur) => [(k, cur.reverse)]
  | c :: t, none => runsAux t (some (c.isDigit, [c]))
  | c :: t, some (k, cur) =>
    if c.isDigit = k then runsAux t (some (k, c :: cur))
    else (k, cur.reverse) :: runsAux t (some (c.isDigit, [c]))

/-- The alternating chunk list produced by `re.split` on the pattern of one
    or more digits with a capture group: text chunks (possibly empty)
    interleaved with the captured digit runs, starting and ending with a
    text chunk. -/
def reSplitGlue : List (Bool × List Char) → List String
  | [] => [""]
  | [(false, t)] => [String.mk t]
  | (false, t) :: (true, d) :: rest => String.mk t :: String.mk d :: reSplitGlue rest
  | (true, d) :: rest => "" :: String.mk d :: reSplitGlue rest
  | (false, t) :: rest => String.mk t :: reSplitGlue rest

/-- `re.split` keeping the captured digit runs, as used by
    `get_ipsae_AF3.natural_sort_key`. -/
def reSplitDigits (s : String) : List String :=
  reSplitGlue (runsAux s.toList none)

/-- Python `str.isdigit` on the chunk strings: non-empty and all digits. -/
def pyIsDigit (s : String) : Bool :=
  !s.toList.isEmpty && s.toList.all Char.isDigit

/-- Python `str.lower` (the names here are ASCII). -/
def pyLower (s : String) : String :=
  String.mk (s.toList.map Char.toLower)

/-- One element of a `natural_sort_key` key: an `int` or a `str` chunk. -/
inductive SKey where
  | s (t : String)
  | n (v : Nat)
deriving DecidableEq

/-- `get_ipsae_AF3.natural_sort_key`: digit chunks become ints, text chunks
    are lowercased. -/
def natural_sort_key (x : String) : List SKey :=
  (reSplitDigits x).map fun t =>
    if pyIsDigit t then .n (digitsToNat t.toList) else .s (pyLower t)

/-- `boltz_ipsae_boltz2.natural_binder_sort_key`: the value of the trailing
    digit run if there is one, otherwise the raw name. -/
def natural_binder_sort_key (name : String) : Nat ⊕ String :=
  let ds := (name.toList.reverse.takeWhile Char.isDigit).reverse
  if ds.isEmpty then .inr name else .inl (digitsToNat ds)

/-- Python string comparison: lexicographic on code points. -/
def pyStrLt : List Char → List Char → Bool
  | [], [] => false
  | [], _ :: _ => true
  | _ :: _, [] => false
  | a :: as, b :: bs =>
    if a.toNat < b.toNat then true
    else if b.toNat < a.toNat then false
    else pyStrLt as bs

/-- Python `==` on key elements (`int == str` is `False`, not an error). -/
def skeyEq : SKey → SKey → Bool
  | .s a, .s b => a = b
  | .n a, .n b => a = b
  | _, _ => false

/-- Python `<` on key elements; comparing an `int` with a `str` raises
    `TypeError`, modelled as `none`. -/
def skeyLt : SKey → SKey → Option Bool
  | .s a, .s b => some (pyStrLt a.toList b.toList)
  | .n a, .n b => some (decide (a < b))
  | _, _ => none

/-- Python `<` on key lists: first differing element decides, then length. -/
def keyListLt : List SKey → List SKey → Option Bool
  | [], [] => some false
  | [], _ :: _ => some true
  | _ :: _, [] => some false
  | a :: as, b :: bs => if skeyEq a b then keyListLt as bs else skeyLt a b

/-- Python `<` on `natural_binder_sort_key` keys; an `int` key and a `str`
    key do not compare (`TypeError`), modelled as `none`. -/
def bKeyLt : Nat ⊕ String → Nat ⊕ String → Option Bool
  | .inl i, .inl j => some (decide (i < j))
  | .inr s, .inr t => some (pyStrLt s.toList t.toList)
  | _, _ => none

/-- Stable insertion respecting a partial comparison; `none` when some
    needed comparison raises. -/
def insertOpt (lt : α → α → Option Bool) (x : α) : List α → Option (List α)
  | [] => some [x]
  | y :: ys =>
    match lt x y with
    | none => none
    | some true => some (x :: y :: ys)
    | some false =>
      match insertOpt lt x ys with
      | none => none
      | some zs => some (y :: zs)

/-- One step of the sorting fold: give up once a comparison has raised. -/
def sortStep (lt : α → α → Option Bool) (acc : Option (List α)) (x : α) :
    Option (List α) :=
  match acc with
  | none => none
  | some a => insertOpt lt x a

/-- Stable sort with a partial comparison, modelling Python `sorted`
    (which raises `TypeError` as soon as two keys do not compare). -/
def sortOpt (lt : α → α → Option Bool) (l : List α) : Option (List α) :=
  l.foldl (sortStep lt) (some [])

/-- Comparison of two names under `natural_sort_key`. -/
def aNameLt (a b : String) : Option Bool :=
  keyListLt (natural_sort_key a) (natural_sort_key b)

/-- Comparison of two names under `natural_binder_sort_key`. -/
def bNameLt (a b : String) : Option Bool :=
  bKeyLt (natural_binder_sort_key a) (natural_binder_sort_key b)

/-- `sorted(names, key=natural_sort_key)` of `get_ipsae_AF3`. -/
def pySortedA (names : List String) : Option (List String) :=
  sortOpt aNameLt names

/-- `sorted(dirs, key=natural_binder_sort_key)` of `boltz_ipsae_boltz2`. -/
def pySortedB (names : List String) : Option (List String) :=
  sortOpt bNameLt names

/-- Numeric value of a name's trailing digit run (0 for the string case;
    only used under the hypothesis that the key is numeric). -/
def bval (x : String) : Nat :=
  match natural_binder_sort_key x with
  | .inl k => k
  | .inr _ => 0

/-! ## Parsed documents (JSON / YAML values) and sequence extraction -/

/-- A parsed Python value as produced by `json.load` / `yaml.safe_load`. -/
inductive PyVal where
  | vnone
  | vstr (s : String)
  | vnum (q : ℚ)
  | vbool (b : Bool)
  | vlist (xs : List PyVal)
  | vdict (kvs : List (String × PyVal))

/-- Python runtime errors raised by the extraction code on ill-shaped
    documents. -/
inductive PyErr where
  | attrErr
  | typeErr
deriving DecidableEq

/-- Dictionary lookup; both loaders keep the last binding of a repeated
    key, so the association list is read from the right. -/
def dictGet (kvs : List (String × PyVal)) (k : String) : Option PyVal :=
  (kvs.reverse.find? fun p => p.1 = k).map (·.2)

/-- `v.get(k, dflt)`: dictionary lookup with a default; on a non-dict this
    is an `AttributeError`. -/
def pyGetAttr (v : PyVal) (k : String) (dflt : PyVal) : Except PyErr PyVal :=
  match v with
  | .vdict kvs => .ok ((dictGet kvs k).getD dflt)
  | _ => .error .attrErr

/-- Python iteration over a value: a list yields its elements, a dict its
    keys, a string its characters; anything else is a `TypeError`. -/
def pyIterate : PyVal → Except PyErr (List PyVal)
  | .vlist xs => .ok xs
  | .vdict kvs => .ok (kvs.map fun p => .vstr p.1)
  | .vstr s => .ok (s.toList.map fun c => .vstr (String.mk [c]))
  | _ => .error .typeErr

/-- Python `str()` of a value.  Strings are themselves; the rendering of
    the remaining shapes is abbreviated (a rendered number, container or
    `None` is never a single chain letter, which is all the extraction
    code compares these strings against). -/
def pyStr : PyVal → String
  | .vnone => "None"
  | .vstr s => s
  | .vnum q => toString q
  | .vbool b => if b then "True" else "False"
  | .vlist _ => "<list>"
  | .vdict _ => "<dict>"

/-- `needle` occurs as a contiguous substring of the haystack. -/
def isSubstr (needle : List Char) : List Char → Bool
  | [] => needle.isEmpty
  | c :: t => needle.isPrefixOf (c :: t) || isSubstr needle t

/-- `needle in v` for the container shapes: list membership is elementwise
    equality (a string only equals a string), dict membership tests keys,
    string membership is a substring test; otherwise `TypeError`. -/
def pyInStr (needle : String) (v : PyVal) : Except PyErr Bool :=
  match v with
  | .vlist xs => .ok (xs.any fun x => match x with | .vstr s => s = needle | _ => false)
  | .vdict kvs => .ok (kvs.any fun p => p.1 = needle)
  | .vstr s => .ok (isSubstr needle.toList s.toList)
  | _ => .error .typeErr

/-- Entry loop of `boltz_ipsae_boltz2.parse_chain_b_sequence`: normalise
    the `id` field to a list of strings (a list is mapped through `str`, a
    non-`None` scalar becomes a one-element list), then match by
    membership. -/
def chainBEntryLoop : List PyVal → Except PyErr (Option String)
  | [] => .ok none
  | entry :: rest =>
    match pyGetAttr entry "protein" (.vdict []) with
    | .error e => .error e
    | .ok protein =>
      match pyGetAttr protein "id" .vnone with
      | .error e => .error e
      | .ok pid =>
        let ids : List String :=
          match pid with
          | .vlist xs => xs.map pyStr
          | .vnone => []
          | v => [pyStr v]
        if ids.contains "B" then
          match pyGetAttr protein "sequence" .vnone with
          | .error e => .error e
          | .ok (.vstr s) => .ok (some s)
          | .ok _ => chainBEntryLoop rest
        else chainBEntryLoop rest

/-- `boltz_ipsae_boltz2.parse_chain_b_sequence` on the parsed YAML
    document. -/
def parse_chain_b_sequence (data : PyVal) : Except PyErr (Option String) :=
  match pyGetAttr data "sequences" (.vlist []) with
  | .error e => .error e
  | .ok seqs =>
    match pyIterate seqs with
    | .error e => .error e
    | .ok entries => chainBEntryLoop entries

/-- Entry loop of `get_ipsae_AF3.find_chain_b_sequence`: the `id` field
    matches only when it is a list containing the string `B`; a bare
    scalar is never matched. -/
def findBEntryLoop : List PyVal → Except PyErr (Option String)
  | [] => .ok none
  | entry :: rest =>
    match pyGetAttr entry "protein" (.vdict []) with
    | .error e => .error e
    | .ok protein =>
      match pyGetAttr protein "id" (.vlist []) with
      | .error e => .error e
      | .ok (.vlist xs) =>
        if xs.any (fun x => match x with | .vstr s => s = "B" | _ => false) then
          match pyGetAttr protein "sequence" .vnone with
          | .error e => .error e
          | .ok (.vstr s) => .ok (some s)
          | .ok _ => findBEntryLoop rest
        else findBEntryLoop rest
      | .ok _ => findBEntryLoop rest

/-- `get_ipsae_AF3.find_chain_b_sequence` on one parsed JSON document
    (a non-dict document or a non-list `sequences` field is skipped). -/
def find_chain_b_sequence (data : PyVal) : Except PyErr (Option String) :=
  match data with
  | .vdict kvs =>
    match dictGet kvs "sequences" with
    | some (.vlist entries) => findBEntryLoop entries
    | _ => .ok none
  | _ => .ok none

/-- Entry loop of `AF3_AB_iptm.extract_BC_sequences`: a string `id` is
    wrapped into a one-element list, then chains `B` and `C` are matched
    by membership, updating the running pair. -/
def extractBCLoop : List PyVal → PyVal → PyVal → Except PyErr (PyVal × PyVal)
  | [], heavy, light => .ok (heavy, light)
  | entry :: rest, heavy, light =>
    match pyGetAttr entry "protein" (.vdict []) with
    | .error e => .error e
    | .ok prot =>
      match pyGetAttr prot "id" (.vlist []) with
      | .error e => .error e
      | .ok ids0 =>
        let ids := match ids0 with | .vstr s => PyVal.vlist [.vstr s] | v => v
        match pyGetAttr prot "sequence" (.vstr "") with
        | .error e => .error e
        | .ok seq =>
          match pyInStr "B" ids with
          | .error e => .error e
          | .ok hB =>
            match pyInStr "C" ids with
            | .error e => .error e
            | .ok hC =>
              extractBCLoop rest (if hB then seq else heavy) (if hC then seq else light)

/-- `AF3_AB_iptm.extract_BC_sequences` on the parsed input JSON. -/
def extract_BC_sequences (data : PyVal) : Except PyErr (PyVal × PyVal) :=
  match pyGetAttr data "sequences" (.vlist []) with
  | .error e => .error e
  | .ok seqs =>
    match pyIterate seqs with
    | .error e => .error e
    | .ok entries => extractBCLoop entries (.vstr "") (.vstr "")

/-- A one-protein entry whose `id` field is `pid`; `extra` holds the other
    protein fields (the `id` binding placed last wins the lookup, matching
    both loaders' last-binding semantics). -/
def protEntry (pid : PyVal) (extra : List (String × PyVal)) : PyVal :=
  .vdict [("protein", .vdict (extra ++ [("id", pid)]))]

/-! ## Candidate discovery: upward root search (`AF3_AB_iptm.find_binder_root`) -/

/-- The base name matches the anchored pattern of `AB` followed by one or
    more digits. -/
def isABName (s : String) : Bool :=
  match s.toList with
  | 'A' :: 'B' :: rest => !rest.isEmpty && rest.all Char.isDigit
  | _ => false

/-- Base name of an absolute path given as its component list
    (the root `[]` has base name `""`, as `os.path.basename` gives `/`). -/
def baseName (p : List String) : String :=
  p.getLast?.getD ""

/-- `AF3_AB_iptm.find_binder_root`: walk upward at most `maxUp` hops,
    returning the first directory matching `isABName`; stop at the
    filesystem root (its parent is itself). -/
def find_binder_root : List String → Nat → Option (List String)
  | _, 0 => none
  | cur, k + 1 =>
    if isABName (baseName cur) then some cur
    else if cur.dropLast = cur then none
    else find_binder_root cur.dropLast k

/-- The chain of a path and its ancestors, ending at the root. -/
def ancestors (p : List String) : List (List String) :=
  if h : p = [] then [[]]
  else p :: ancestors p.dropLast
termination_by p.length
decreasing_by
  simp only [List.length_dropLast]
  have := List.length_pos.mpr h
  omega

/-! ## Scorer invocation (`run_ipsae` of both pipelines) -/

/-- The scorer's working directory together with a count of external
    scorer invocations. -/
structure WDir where
  files : List String
  invocations : Nat
deriving DecidableEq

/-- An external scorer: from the current directory contents, its exit
    status (`true` for exit code 0) and the files it creates.  Running a
    scoring subprocess adds files to the directory. -/
def ScorerModel := List String → Bool × List String

def paeNameB : String := "pae_input_model_0.npz"
def cifNameB : String := "input_model_0.cif"
def outNameB : String := "input_model_0_10_10.txt"

/-- `boltz_ipsae_boltz2.run_ipsae` with its default arguments: require the
    PAE and CIF inputs, skip the subprocess when the output text file
    already exists, otherwise run it and fail when it exits non-zero or
    the output still does not exist. -/
def run_ipsae_boltz (scorer : ScorerModel) (σ : WDir) : Option String × WDir :=
  if ¬(paeNameB ∈ σ.files) ∨ ¬(cifNameB ∈ σ.files) then (none, σ)
  else if outNameB ∈ σ.files then (some outNameB, σ)
  else
    let r := scorer σ.files
    let σ' : WDir := ⟨σ.files ++ r.2, σ.invocations + 1⟩
    if r.1 = false then (none, σ')
    else if ¬(outNameB ∈ σ'.files) then (none, σ')
    else (some outNameB, σ')

def jsonNameA : String := "t0.3_seed-1_sample-0_confidences.json"
def cifNameA : String := "t0.3_seed-1_sample-0_model.cif"
def outNameA : String := "t0.3_seed-1_sample-0_model_10_10.txt"

/-- `get_ipsae_AF3.run_ipsae`: skip when the output exists, skip when an
    input is missing, otherwise run the subprocess (its exit status is
    only logged).  The function returns nothing. -/
def run_ipsae_af3 (scorer : ScorerModel) (σ : WDir) : WDir :=
  if outNameA ∈ σ.files then σ
  else if ¬(jsonNameA ∈ σ.files) ∨ ¬(cifNameA ∈ σ.files) then σ
  else ⟨σ.files ++ (scorer σ.files).2, σ.invocations + 1⟩

/-- The per-candidate scoring step of `get_ipsae_AF3.main`: run the scorer
    if needed, then check that the output text file exists before using
    its path; otherwise the candidate yields nothing. -/
def af3_score_step (scorer : ScorerModel) (σ : WDir) : Option String × WDir :=
  let σ' := run_ipsae_af3 scorer σ
  if outNameA ∈ σ'.files then (some outNameA, σ') else (none, σ')

/-! ## Threshold filtering -/

/-- The row filter of `boltz_ipsae_boltz2.collect_ipsae`: a candidate's
    row is kept when `ipsae_val >= threshold`. -/
def collect_rows (threshold : ℚ) (scored : List (String × ℚ)) : List (String × ℚ) :=
  scored.filter fun r => decide (threshold ≤ r.2)

/-- The row filter of the high-ipSAE report of `get_ipsae_AF3.main`: a
    result row is written when `ipsae > 0.75` (the cutoff is fixed in the
    source). -/
def high_ipsae_rows (results : List (String × ℚ × ℚ)) : List (String × ℚ × ℚ) :=
  results.filter fun r => decide (mkRat 3 4 < r.2.1)

/-! ## General lemmas -/

theorem findSome?_eq_head?_filterMap {α β : Type} (f : α → Option β) (l : List α) :
    l.findSome? f = (l.filterMap f).head? := by
  induction l with
  | nil => rfl
  | cons a t ih =>
    cases hfa : f a with
    | none => simp only [List.findSome?_cons, List.filterMap_cons, hfa]; exact ih
    | some b => simp only [List.findSome?_cons, List.filterMap_cons, hfa, List.head?_cons]

theorem findCol_eq_none_iff {header : List String} {name : String} :
    findCol header name = none ↔ name ∉ header := by
  rw [findCol, List.findIdx?_eq_none_iff]
  constructor
  · intro h hm
    have := h name hm
    simp at this
  · intro h x hx
    simp only [decide_eq_false_iff_not]
    intro hxe
    exact h (hxe ▸ hx)

theorem findCol_is_some {header : List String} {name : String} (h : name ∈ header) :
    ∃ i, findCol header name = some i := by
  cases hf : findCol header name with
  | none => exact absurd (findCol_eq_none_iff.mp hf) (by simpa using h)
  | some i => exact ⟨i, rfl⟩

theorem maxRowScan_eq_head (i1 i2 it : Nat) (rows : List (List String)) :
    maxRowScan i1 i2 it rows = (maxRowHits i1 i2 it rows).head? :=
  findSome?_eq_head?_filterMap _ _

theorem parse_ipsae_max_eq_head (content : List String) :
    parse_ipsae_max content = (lineHitsB content).head? :=
  findSome?_eq_head?_filterMap _ _

theorem foldl_fbStep_eq (i1 i2 : Nat) (rows : List (List String)) (b : Option (ℚ × ℚ)) :
    rows.foldl (fbStep i1 i2) b = (fallbackPairs i1 i2 rows).foldl bStep b := by
  induction rows generalizing b with
  | nil => rfl
  | cons r t ih =>
    cases hp : fallbackPair i1 i2 r with
    | none =>
      simp only [List.foldl_cons, fallbackPairs, List.filterMap_cons, hp, fbStep]
      exact ih b
    | some p =>
      simp only [List.foldl_cons, fallbackPairs, List.filterMap_cons, hp, fbStep,
        List.foldl_cons]
      exact ih (bStep b p)

theorem foldl_bStep_some (ps : List (ℚ × ℚ)) (b : ℚ × ℚ) :
    ps.foldl bStep (some b) = some (firstMaxAux b ps) := by
  induction ps generalizing b with
  | nil => rfl
  | cons p t ih =>
    simp only [List.foldl_cons, bStep, firstMaxAux]
    split <;> exact ih _

theorem fallbackScan_eq_firstMax (i1 i2 : Nat) (rows : List (List String)) :
    fallbackScan i1 i2 rows = firstMax (fallbackPairs i1 i2 rows) := by
  rw [fallbackScan, foldl_fbStep_eq]
  cases hps : fallbackPairs i1 i2 rows with
  | nil => rfl
  | cons p t => simp only [List.foldl_cons, bStep, firstMax]; exact foldl_bStep_some t p

theorem firstMaxAux_decomp (ps : List (ℚ × ℚ)) (b : ℚ × ℚ) :
    (firstMaxAux b ps = b ∧ ∀ p ∈ ps, p.1 ≤ b.1)
    ∨ ∃ pre post, ps = pre ++ firstMaxAux b ps :: post
        ∧ b.1 < (firstMaxAux b ps).1
        ∧ (∀ p ∈ pre, p.1 < (firstMaxAux b ps).1)
        ∧ (∀ p ∈ post, p.1 ≤ (firstMaxAux b ps).1) := by
  induction ps generalizing b with
  | nil => exact .inl ⟨rfl, by simp⟩
  | cons p t ih =>
    by_cases h : p.1 > b.1
    · have hb : firstMaxAux b (p :: t) = firstMaxAux p t := by
        simp only [firstMaxAux, if_pos h]
      rcases ih p with ⟨hr, hbnd⟩ | ⟨pre, post, hsplit, hlt, hpre, hpost⟩
      · refine .inr ⟨[], t, ?_, ?_, by simp, ?_⟩
        · simp [hb, hr]
        · rw [hb, hr]; exact h
        · intro q hq; rw [hb, hr]; exact hbnd q hq
      · refine .inr ⟨p :: pre, post, ?_, ?_, ?_, ?_⟩
        · rw [hb, List.cons_append, ← hsplit]
        · rw [hb]; exact lt_trans h hlt
        · intro q hq
          rcases List.mem_cons.mp hq with rfl | hq2
          · rw [hb]; exact lt_of_le_of_lt (le_of_eq rfl) hlt
          · rw [hb]; exact hpre q hq2
        · intro q hq; rw [hb]; exact hpost q hq
    · have hb : firstMaxAux b (p :: t) = firstMaxAux b t := by
        simp only [firstMaxAux, if_neg h]
      rcases ih b with ⟨hr, hbnd⟩ | ⟨pre, post, hsplit, hlt, hpre, hpost⟩
      · refine .inl ⟨by rw [hb, hr], ?_⟩
        intro q hq
        rcases List.mem_cons.mp hq with rfl | hq2
        · exact le_of_not_lt h
        · exact hbnd q hq2
      · refine .inr ⟨p :: pre, post, ?_, ?_, ?_, ?_⟩
        · rw [hb, List.cons_append, ← hsplit]
        · rw [hb]; exact hlt
        · intro q hq
          rcases List.mem_cons.mp hq with rfl | hq2
          · rw [hb]; exact lt_of_le_of_lt (le_of_not_lt h) hlt
          · rw [hb]; exact hpre q hq2
        · intro q hq; rw [hb]; exact hpost q hq

theorem firstMax_decomp {ps : List (ℚ × ℚ)} {r : ℚ × ℚ} (h : firstMax ps = some r) :
    ∃ pre post, ps = pre ++ r :: post
      ∧ (∀ p ∈ pre, p.1 < r.1) ∧ (∀ p ∈ post, p.1 ≤ r.1) := by
  cases ps with
  | nil => exact absurd h (by simp [firstMax])
  | cons p t =>
    have hr : firstMaxAux p t = r := by
      have := h
      simp only [firstMax, Option.some.injEq] at this
      exact this
    rcases firstMaxAux_decomp t p with ⟨he, hbnd⟩ | ⟨pre, post, hsplit, hlt, hpre, hpost⟩
    · refine ⟨[], t, ?_, by simp, ?_⟩
      · rw [← hr, he]; rfl
      · intro q hq; rw [← hr, he]; exact hbnd q hq
    · refine ⟨p :: pre, post, ?_, ?_, ?_⟩
      · rw [← hr, List.cons_append, ← hsplit]
      · intro q hq
        rcases List.mem_cons.mp hq with rfl | hq2
        · rw [← hr]; exact hlt
        · rw [← hr]; exact hpre q hq2
      · intro q hq; rw [← hr]; exact hpost q hq

theorem firstMax_mem {ps : List (ℚ × ℚ)} {r : ℚ × ℚ} (h : firstMax ps = some r) :
    r ∈ ps := by
  obtain ⟨pre, post, hsplit, -, -⟩ := firstMax_decomp h
  rw [hsplit]
  exact List.mem_append_right _ (List.mem_cons_self _ _)

theorem firstMax_is_max {ps : List (ℚ × ℚ)} {r : ℚ × ℚ} (h : firstMax ps = some r) :
    ∀ p ∈ ps, p.1 ≤ r.1 := by
  obtain ⟨pre, post, hsplit, hpre, hpost⟩ := firstMax_decomp h
  intro p hp
  rw [hsplit] at hp
  rcases List.mem_append.mp hp with hp1 | hp2
  · exact le_of_lt (hpre p hp1)
  · rcases List.mem_cons.mp hp2 with rfl | hp3
    · exact le_refl _
    · exact hpost p hp3

theorem firstMax_eq_none {ps : List (ℚ × ℚ)} : firstMax ps = none ↔ ps = [] := by
  cases ps <;> simp [firstMax]

theorem parse_af3_unfold {content : List String} {hd d0 : String} {rest : List String}
    {i1 i2 it : Nat}
    (hclean : cleanLines content = hd :: d0 :: rest)
    (hidx : headerIdx (pySplit hd) = .ok (i1, i2, it)) :
    parse_ipsae_and_iptm content =
      match maxRowScan i1 i2 it ((d0 :: rest).map pySplit) with
      | some st => .ok st
      | none =>
        match fallbackScan i1 i2 ((d0 :: rest).map pySplit) with
        | some st => .ok st
        | none => .error .noValidValues := by
  simp only [parse_ipsae_and_iptm, hclean, hidx]

theorem parse_af3_header_err {content : List String} {hd d0 : String} {rest : List String}
    {e : ParseErr}
    (hclean : cleanLines content = hd :: d0 :: rest)
    (hidx : headerIdx (pySplit hd) = .error e) :
    parse_ipsae_and_iptm content = .error e := by
  simp only [parse_ipsae_and_iptm, hclean, hidx]

theorem lineResultB_header {hd : String} (h : pyStartsWith (pyStrip hd) "Chn1" = true) :
    lineResultB hd = none := by
  by_cases hb : pyStrip hd = ""
  · simp [lineResultB, hb]
  · simp [lineResultB, hb, h]

/-! ## Claims -/

/-- C1 (amended): the AF3 tabular parser locates each required column by
    name in the header line and, on a file with at least one data line, a
    header missing a required column makes the parse fail with an error
    naming the first missing column; the boltz2 parser, by contrast, never
    consults the header names at all — its result is invariant under
    replacing the header line by any other header line. -/
theorem C1_header_lookup :
    (∀ (content : List String) (hd d0 : String) (rest : List String),
      cleanLines content = hd :: d0 :: rest →
      ("ipSAE" ∉ pySplit hd →
        parse_ipsae_and_iptm content = .error (.missingColumn "ipSAE"))
      ∧ ("ipSAE" ∈ pySplit hd → "ipTM_af" ∉ pySplit hd →
        parse_ipsae_and_iptm content = .error (.missingColumn "ipTM_af"))
      ∧ ("ipSAE" ∈ pySplit hd → "ipTM_af" ∈ pySplit hd → "Type" ∉ pySplit hd →
        parse_ipsae_and_iptm content = .error (.missingColumn "Type")))
    ∧ ∀ (hd1 hd2 : String) (rest : List String),
      pyStartsWith (pyStrip hd1) "Chn1" = true →
      pyStartsWith (pyStrip hd2) "Chn1" = true →
      parse_ipsae_max (hd1 :: rest) = parse_ipsae_max (hd2 :: rest) := by
  constructor
  · intro content hd d0 rest hclean
    refine ⟨?_, ?_, ?_⟩
    · intro h1
      refine parse_af3_header_err hclean ?_
      simp [headerIdx, findCol_eq_none_iff.mpr h1]
    · intro h1 h2
      obtain ⟨i, hi⟩ := findCol_is_some h1
      refine parse_af3_header_err hclean ?_
      simp [headerIdx, hi, findCol_eq_none_iff.mpr h2]
    · intro h1 h2 h3
      obtain ⟨i, hi⟩ := findCol_is_some h1
      obtain ⟨j, hj⟩ := findCol_is_some h2
      refine parse_af3_header_err hclean ?_
      simp [headerIdx, hi, hj, findCol_eq_none_iff.mpr h3]
  · intro hd1 hd2 rest h1 h2
    simp only [parse_ipsae_max, List.findSome?_cons, lineResultB_header h1,
      lineResultB_header h2]

/-- C1 witness: a header with a missing column is reported by name by the
    AF3 parser, and the boltz2 parser's result ignores the header line. -/
theorem C1_witness :
    parse_ipsae_and_iptm ["ipTM_af Type", "0.5 max"] = .error (.missingColumn "ipSAE")
    ∧ parse_ipsae_max ["Chn1 x y z w v", "a b c d max 0.3"]
      = parse_ipsae_max ["Chn1 some entirely different header", "a b c d max 0.3"] :=
  ⟨(C1_header_lookup.1 ["ipTM_af Type", "0.5 max"] "ipTM_af Type" "0.5 max" []
      (by decide)).1 (by decide),
   C1_header_lookup.2 "Chn1 x y z w v" "Chn1 some entirely different header"
      ["a b c d max 0.3"] (by decide) (by decide)⟩

/-- C1 counterexample: the boltz2 parser succeeds on a file whose header
    names none of the required columns (so a missing required column does
    not fail with an error naming it), and when a header does name the
    columns at other positions, the value is still read from fixed
    position 5 (here the column named `ipSAE` holds `0.9`, yet `0.1` is
    returned). -/
theorem C1_counterexample :
    parse_ipsae_max ["Chn1 a b c d e", "p q r s max 0.42"] = some (mkRat 21 50)
    ∧ parse_ipsae_max ["Chn1 Chn2 ipSAE Dist Type extra", "a b 0.9 d max 0.1"]
      = some (mkRat 1 10) := by
  constructor <;> decide

/-- C3 (confirmed): whenever a file contains a usable `max`-typed data row
    (type column equal to `max`, value(s) parseable), each parser returns
    exactly the first such row's value, regardless of any larger values in
    other rows. -/
theorem C3_max_row_priority :
    (∀ (content : List String) (hd d0 : String) (rest : List String)
        (i1 i2 it : Nat) (s t : ℚ) (hits : List (ℚ × ℚ)),
      cleanLines content = hd :: d0 :: rest →
      headerIdx (pySplit hd) = .ok (i1, i2, it) →
      maxRowHits i1 i2 it ((d0 :: rest).map pySplit) = (s, t) :: hits →
      parse_ipsae_and_iptm content = .ok (s, t))
    ∧ ∀ (content : List String) (v : ℚ) (vs : List ℚ),
      lineHitsB content = v :: vs → parse_ipsae_max content = some v := by
  constructor
  · intro content hd d0 rest i1 i2 it s t hits hclean hidx hhits
    rw [parse_af3_unfold hclean hidx, maxRowScan_eq_head, hhits]
    rfl
  · intro content v vs hhits
    rw [parse_ipsae_max_eq_head, hhits]
    rfl

/-- C3 witness: in both parsers the `max` row wins even though another row
    holds a strictly larger value. -/
theorem C3_witness :
    parse_ipsae_and_iptm ["ipSAE ipTM_af Type", "0.9 0.8 nice", "0.5 0.4 max"]
      = .ok (mkRat 1 2, mkRat 2 5)
    ∧ parse_ipsae_max ["Chn1 h", "a b c d max 0.3", "x y z w max 0.9"]
      = some (mkRat 3 10) :=
  ⟨C3_max_row_priority.1 ["ipSAE ipTM_af Type", "0.9 0.8 nice", "0.5 0.4 max"]
      "ipSAE ipTM_af Type" "0.9 0.8 nice" ["0.5 0.4 max"] 0 1 2
      (mkRat 1 2) (mkRat 2 5) [] (by decide) (by decide) (by decide),
   C3_max_row_priority.2 ["Chn1 h", "a b c d max 0.3", "x y z w max 0.9"]
      (mkRat 3 10) [mkRat 9 10] (by decide)⟩

/-- C2 (amended): with no usable `max` row, the AF3 parser returns a pair
    whose ipSAE is the maximum over all rows where both values parse, and
    errors when no row parses; a file without the `Type` column is a
    missing-column error there, not a fallback.  The boltz2 parser has no
    fallback: a returned value always stems from some `max`-typed line,
    and a file with no such line yields nothing. -/
theorem C2_fallback_maximum :
    (∀ (content : List String) (hd d0 : String) (rest : List String) (i1 i2 it : Nat),
      cleanLines content = hd :: d0 :: rest →
      headerIdx (pySplit hd) = .ok (i1, i2, it) →
      maxRowHits i1 i2 it ((d0 :: rest).map pySplit) = [] →
      (∀ s t, parse_ipsae_and_iptm content = .ok (s, t) →
        (s, t) ∈ fallbackPairs i1 i2 ((d0 :: rest).map pySplit)
        ∧ ∀ p ∈ fallbackPairs i1 i2 ((d0 :: rest).map pySplit), p.1 ≤ s)
      ∧ (fallbackPairs i1 i2 ((d0 :: rest).map pySplit) = [] →
        parse_ipsae_and_iptm content = .error .noValidValues))
    ∧ (∀ (content : List String) (v : ℚ), parse_ipsae_max content = some v →
      ∃ ln ∈ content, lineResultB ln = some v)
    ∧ ∀ content : List String, lineHitsB content = [] →
      parse_ipsae_max content = none := by
  refine ⟨?_, ?_, ?_⟩
  · intro content hd d0 rest i1 i2 it hclean hidx hnomax
    have hunf := parse_af3_unfold hclean hidx
    rw [maxRowScan_eq_head, hnomax, fallbackScan_eq_firstMax] at hunf
    constructor
    · intro s t hok
      rw [hunf] at hok
      cases hfm : firstMax (fallbackPairs i1 i2 ((d0 :: rest).map pySplit)) with
      | none => rw [hfm] at hok; simp at hok
      | some r =>
        rw [hfm] at hok
        simp only [List.head?_nil, Except.ok.injEq] at hok
        subst hok
        exact ⟨firstMax_mem hfm, firstMax_is_max hfm⟩
    · intro hempty
      rw [hunf, hempty]
      rfl
  · intro content v hv
    rw [parse_ipsae_max_eq_head] at hv
    have hm : v ∈ lineHitsB content := by
      cases hl : lineHitsB content with
      | nil => rw [hl] at hv; simp at hv
      | cons a t => rw [hl] at hv; simp at hv; simp [hl, hv]
    obtain ⟨ln, hln, hres⟩ := List.mem_filterMap.mp hm
    exact ⟨ln, hln, hres⟩
  · intro content hempty
    rw [parse_ipsae_max_eq_head, hempty]
    rfl

/-- C2 witness: the AF3 fallback returns the maximal parseable ipSAE, and
    a boltz2 result always stems from a `max` line. -/
theorem C2_witness :
    ((mkRat 1 2, mkRat 2 5) ∈
        fallbackPairs 0 1
          (["bad bad nice", "0.2 0.9 nice", "0.5 0.4 nice"].map pySplit)
      ∧ ∀ p ∈ fallbackPairs 0 1
          (["bad bad nice", "0.2 0.9 nice", "0.5 0.4 nice"].map pySplit),
          p.1 ≤ mkRat 1 2)
    ∧ ∃ ln ∈ ["Chn1 h", "a b c d max 0.3"], lineResultB ln = some (mkRat 3 10) :=
  ⟨((C2_fallback_maximum.1
      ["ipSAE ipTM_af Type", "bad bad nice", "0.2 0.9 nice", "0.5 0.4 nice"]
      "ipSAE ipTM_af Type" "bad bad nice" ["0.2 0.9 nice", "0.5 0.4 nice"] 0 1 2
      (by decide) (by decide) (by decide)).1 (mkRat 1 2) (mkRat 2 5) (by decide)),
   C2_fallback_maximum.2.1 ["Chn1 h", "a b c d max 0.3"] (mkRat 3 10) (by decide)⟩

/-- C2 counterexample: with parseable data rows but no `max` row, the
    boltz2 parser returns nothing instead of the maximum value `0.9`; and
    the AF3 parser on a file without a `Type` column raises the
    missing-column error instead of returning the maximum `0.5`. -/
theorem C2_counterexample :
    parse_ipsae_max ["Chn1 h1 h2 h3 h4 h5", "a b c d typ 0.9", "a b c d typ 0.3"] = none
    ∧ parse_ipsae_and_iptm ["ipSAE ipTM_af", "0.5 0.4"]
      = .error (.missingColumn "Type") := by
  constructor <;> decide

/-- C10 (confirmed): in the AF3 fallback, the returned pair is exactly the
    first row (among those whose two values both parse) attaining the
    maximal ipSAE — its ipTM_af travels with it — with strictly smaller
    ipSAE before it and no larger ipSAE after it; rows failing to parse
    appear in neither list. -/
theorem C10_fallback_pairing :
    ∀ (content : List String) (hd d0 : String) (rest : List String)
      (i1 i2 it : Nat) (s t : ℚ),
      cleanLines content = hd :: d0 :: rest →
      headerIdx (pySplit hd) = .ok (i1, i2, it) →
      maxRowHits i1 i2 it ((d0 :: rest).map pySplit) = [] →
      parse_ipsae_and_iptm content = .ok (s, t) →
      ∃ pre post, fallbackPairs i1 i2 ((d0 :: rest).map pySplit) = pre ++ (s, t) :: post
        ∧ (∀ p ∈ pre, p.1 < s) ∧ (∀ p ∈ post, p.1 ≤ s) := by
  intro content hd d0 rest i1 i2 it s t hclean hidx hnomax hok
  rw [parse_af3_unfold hclean hidx, maxRowScan_eq_head, hnomax,
    fallbackScan_eq_firstMax] at hok
  cases hfm : firstMax (fallbackPairs i1 i2 ((d0 :: rest).map pySplit)) with
  | none => rw [hfm] at hok; simp at hok
  | some r =>
    rw [hfm] at hok
    simp only [List.head?_nil, Except.ok.injEq] at hok
    subst hok
    exact firstMax_decomp hfm

/-- C10 witness: the fallback picks the first row attaining the maximal
    ipSAE, carrying that row's own ipTM_af (not the globally maximal
    ipTM_af `0.9`). -/
theorem C10_witness :
    ∃ pre post,
      fallbackPairs 0 1 (["0.2 0.9 nice", "0.5 0.4 nice", "0.5 0.1 nice"].map pySplit)
        = pre ++ (mkRat 1 2, mkRat 2 5) :: post
      ∧ (∀ p ∈ pre, p.1 < mkRat 1 2) ∧ (∀ p ∈ post, p.1 ≤ mkRat 1 2) :=
  C10_fallback_pairing
    ["ipSAE ipTM_af Type", "0.2 0.9 nice", "0.5 0.4 nice", "0.5 0.1 nice"]
    "ipSAE ipTM_af Type" "0.2 0.9 nice" ["0.5 0.4 nice", "0.5 0.1 nice"] 0 1 2
    (mkRat 1 2) (mkRat 2 5) (by decide) (by decide) (by decide) (by decide)

/-- C6 (amended): the overview-style report of the boltz2 pipeline keeps a
    row exactly when its metric is `>=` the threshold, and the
    high-confidence report of the AF3 pipeline keeps a row exactly when
    its metric is `>` its fixed cutoff `0.75`; for metrics
    `[0.5, 0.7, 0.7]` and threshold `0.7` the `>=`-style report includes
    exactly the two values equal to `0.7` (not all three), and the
    `>`-style report includes none. -/
theorem C6_threshold_operators :
    (∀ (thr : ℚ) (scored : List (String × ℚ)) (r : String × ℚ),
      r ∈ collect_rows thr scored ↔ r ∈ scored ∧ thr ≤ r.2)
    ∧ (∀ (results : List (String × ℚ × ℚ)) (r : String × ℚ × ℚ),
      r ∈ high_ipsae_rows results ↔ r ∈ results ∧ mkRat 3 4 < r.2.1)
    ∧ collect_rows (mkRat 7 10)
        [("binder_1", mkRat 1 2), ("binder_2", mkRat 7 10), ("binder_3", mkRat 7 10)]
        = [("binder_2", mkRat 7 10), ("binder_3", mkRat 7 10)]
    ∧ high_ipsae_rows
        [("binder_1", mkRat 1 2, 0), ("binder_2", mkRat 7 10, 0),
          ("binder_3", mkRat 7 10, 0)]
        = [] := by
  refine ⟨?_, ?_, by decide, by decide⟩
  · intro thr scored r
    simp [collect_rows, List.mem_filter]
  · intro results r
    simp [high_ipsae_rows, List.mem_filter]

/-- C6 witness: a row equal to the threshold is kept by the `>=`-style
    filter and dropped by the `>`-style filter. -/
theorem C6_witness :
    ("x", mkRat 7 10) ∈ collect_rows (mkRat 7 10) [("x", mkRat 7 10)]
    ∧ ¬(("x", mkRat 3 4, (0 : ℚ)) ∈ high_ipsae_rows [("x", mkRat 3 4, (0 : ℚ))]) :=
  ⟨(C6_threshold_operators.1 (mkRat 7 10) [("x", mkRat 7 10)] ("x", mkRat 7 10)).mpr
      ⟨by decide, by decide⟩,
   fun h => by
    have := (C6_threshold_operators.2.1 [("x", mkRat 3 4, (0 : ℚ))]
        ("x", mkRat 3 4, (0 : ℚ))).mp h
    exact absurd this.2 (by decide)⟩

/-- C6 counterexample: for metrics `[0.5, 0.7, 0.7]` and threshold `0.7`,
    the `>=`-style report does not include all three rows — the `0.5` row
    is excluded and only two rows remain. -/
theorem C6_counterexample :
    ("binder_1", mkRat 1 2) ∉ collect_rows (mkRat 7 10)
      [("binder_1", mkRat 1 2), ("binder_2", mkRat 7 10), ("binder_3", mkRat 7 10)]
    ∧ (collect_rows (mkRat 7 10)
        [("binder_1", mkRat 1 2), ("binder_2", mkRat 7 10),
          ("binder_3", mkRat 7 10)]).length = 2 := by
  constructor <;> decide

/-- C9 (confirmed): the upward owning-root search equals the first match
    of the anchored `AB` pattern on the first `maxHops` entries of the
    ancestor chain (which ends at the filesystem root); in particular a
    matching ancestor exactly one hop beyond the budget is not found. -/
theorem C9_owning_root_search :
    (∀ (p : List String) (n : Nat),
      find_binder_root p n
        = ((ancestors p).take n).find? fun q => isABName (baseName q))
    ∧ find_binder_root ["AB3", "a", "b", "c", "d", "e", "f"] 6 = none
    ∧ find_binder_root ["AB3", "a", "b", "c", "d", "e", "f"] 7 = some ["AB3"] := by
  refine ⟨?_, by decide, by decide⟩
  intro p n
  induction n generalizing p with
  | zero => simp [find_binder_root]
  | succ k ih =>
    by_cases hp : p = []
    · subst hp
      rw [ancestors]
      simp [find_binder_root, baseName, isABName]
    · have hdp : ¬(p.dropLast = p) := by
        intro he
        have hlen := congrArg List.length he
        rw [List.length_dropLast] at hlen
        have hl := List.length_pos.mpr hp
        omega
      have hunf : find_binder_root p (k + 1)
          = if isABName (baseName p) then some p
            else if p.dropLast = p then none else find_binder_root p.dropLast k := rfl
      rw [ancestors, dif_neg hp, hunf, List.take_succ_cons]
      by_cases hab : isABName (baseName p) = true
      · rw [if_pos hab]
        simp [List.find?_cons, hab]
      · have hf : isABName (baseName p) = false := by simpa using hab
        rw [if_neg (by simpa using hab), if_neg hdp]
        simp only [List.find?_cons, hf]
        exact ih p.dropLast

/-- C9 witness: the search result coincides with the first match on the
    budget-limited ancestor chain at a concrete path. -/
theorem C9_witness :
    ((ancestors ["x", "AB12"]).take 3).find? (fun q => isABName (baseName q))
      = some ["x", "AB12"] := by
  rw [← C9_owning_root_search.1]
  decide

theorem run_boltz_inputs_missing (scorer : ScorerModel) (σ : WDir)
    (h : ¬(paeNameB ∈ σ.files) ∨ ¬(cifNameB ∈ σ.files)) :
    run_ipsae_boltz scorer σ = (none, σ) := by
  rw [run_ipsae_boltz, if_pos h]

theorem run_boltz_memo (scorer : ScorerModel) (σ : WDir)
    (hp : paeNameB ∈ σ.files) (hc : cifNameB ∈ σ.files) (ho : outNameB ∈ σ.files) :
    run_ipsae_boltz scorer σ = (some outNameB, σ) := by
  rw [run_ipsae_boltz, if_neg (by simp [hp, hc]), if_pos ho]

theorem run_boltz_invoke (scorer : ScorerModel) (σ : WDir)
    (hp : paeNameB ∈ σ.files) (hc : cifNameB ∈ σ.files) (ho : ¬(outNameB ∈ σ.files)) :
    run_ipsae_boltz scorer σ =
      if (scorer σ.files).1 = false
      then (none, ⟨σ.files ++ (scorer σ.files).2, σ.invocations + 1⟩)
      else if ¬(outNameB ∈ σ.files ++ (scorer σ.files).2)
      then (none, ⟨σ.files ++ (scorer σ.files).2, σ.invocations + 1⟩)
      else (some outNameB, ⟨σ.files ++ (scorer σ.files).2, σ.invocations + 1⟩) := by
  rw [run_ipsae_boltz, if_neg (by simp [hp, hc]), if_neg ho]

theorem run_boltz_some_inv {scorer : ScorerModel} {σ : WDir}
    (h : (run_ipsae_boltz scorer σ).1 = some outNameB) :
    paeNameB ∈ (run_ipsae_boltz scorer σ).2.files
    ∧ cifNameB ∈ (run_ipsae_boltz scorer σ).2.files
    ∧ outNameB ∈ (run_ipsae_boltz scorer σ).2.files := by
  by_cases h1 : ¬(paeNameB ∈ σ.files) ∨ ¬(cifNameB ∈ σ.files)
  · rw [run_boltz_inputs_missing scorer σ h1] at h
    simp at h
  · push_neg at h1
    obtain ⟨hp, hc⟩ := h1
    by_cases h2 : outNameB ∈ σ.files
    · rw [run_boltz_memo scorer σ hp hc h2]
      exact ⟨hp, hc, h2⟩
    · rw [run_boltz_invoke scorer σ hp hc h2] at h ⊢
      by_cases h3 : (scorer σ.files).1 = false
      · rw [if_pos h3] at h
        simp at h
      · rw [if_neg h3] at h ⊢
        by_cases h4 : ¬(outNameB ∈ σ.files ++ (scorer σ.files).2)
        · rw [if_pos h4] at h
          simp at h
        · rw [if_neg h4]
          push_neg at h4
          exact ⟨List.mem_append_left _ hp, List.mem_append_left _ hc, h4⟩

/-- C7 (amended): when the expected output file exists and the required
    inputs also exist, the boltz2 invocation step does not run the scorer
    and returns the existing output's path with the state unchanged; more
    generally, after any call that returned the output path, a second call
    on the resulting directory runs nothing and returns the same path.
    The AF3 variant likewise skips the scorer when the output exists, but
    returns no path at all. -/
theorem C7_memoized_invocation :
    (∀ (scorer : ScorerModel) (σ : WDir),
      paeNameB ∈ σ.files → cifNameB ∈ σ.files → outNameB ∈ σ.files →
      run_ipsae_boltz scorer σ = (some outNameB, σ))
    ∧ (∀ (scorer : ScorerModel) (σ : WDir),
      (run_ipsae_boltz scorer σ).1 = some outNameB →
      run_ipsae_boltz scorer ((run_ipsae_boltz scorer σ).2)
        = (some outNameB, (run_ipsae_boltz scorer σ).2))
    ∧ ∀ (scorer : ScorerModel) (σ : WDir),
      outNameA ∈ σ.files → run_ipsae_af3 scorer σ = σ := by
  refine ⟨fun scorer σ hp hc ho => run_boltz_memo scorer σ hp hc ho, ?_, ?_⟩
  · intro scorer σ h
    obtain ⟨hp, hc, ho⟩ := run_boltz_some_inv h
    exact run_boltz_memo _ _ hp hc ho
  · intro scorer σ ho
    rw [run_ipsae_af3, if_pos ho]

/-- C7 witness: with the output already present (and inputs present), both
    variants skip the scorer; the boltz2 variant returns the path. -/
theorem C7_witness :
    run_ipsae_boltz (fun _ => (true, [])) ⟨[paeNameB, cifNameB, outNameB], 5⟩
      = (some outNameB, ⟨[paeNameB, cifNameB, outNameB], 5⟩)
    ∧ run_ipsae_af3 (fun _ => (true, [])) ⟨[outNameA], 0⟩ = ⟨[outNameA], 0⟩ :=
  ⟨C7_memoized_invocation.1 (fun _ => (true, [])) ⟨[paeNameB, cifNameB, outNameB], 5⟩
      (by decide) (by decide) (by decide),
   C7_memoized_invocation.2.2 (fun _ => (true, [])) ⟨[outNameA], 0⟩ (by decide)⟩

/-- C7 counterexample: with the output file present but an input missing,
    the boltz2 step returns no path at all (the input check precedes the
    memoization check); and after a failed scorer run, a second call
    invokes the scorer again, so two successive calls can run the external
    process twice. -/
theorem C7_counterexample :
    run_ipsae_boltz (fun _ => (true, [outNameB])) ⟨[outNameB], 0⟩
      = (none, ⟨[outNameB], 0⟩)
    ∧ ((run_ipsae_boltz (fun _ => (false, []))
        ((run_ipsae_boltz (fun _ => (false, []))
          ⟨[paeNameB, cifNameB], 0⟩).2)).2).invocations = 2 := by
  constructor <;> decide

/-- C8 (confirmed): after an invocation with exit status zero that still
    did not produce the expected output file, the boltz2 step returns no
    path, and the AF3 pipeline's per-candidate step likewise yields no
    path when the output file does not exist after `run_ipsae` — the exit
    code alone is never taken as proof of success. -/
theorem C8_output_postcondition :
    (∀ (scorer : ScorerModel) (σ : WDir),
      paeNameB ∈ σ.files → cifNameB ∈ σ.files → ¬(outNameB ∈ σ.files) →
      (scorer σ.files).1 = true → ¬(outNameB ∈ (scorer σ.files).2) →
      run_ipsae_boltz scorer σ
        = (none, ⟨σ.files ++ (scorer σ.files).2, σ.invocations + 1⟩))
    ∧ ∀ (scorer : ScorerModel) (σ : WDir),
      ¬(outNameA ∈ σ.files) → ¬(outNameA ∈ (scorer σ.files).2) →
      (af3_score_step scorer σ).1 = none := by
  constructor
  · intro scorer σ hp hc ho hexit hno
    rw [run_boltz_invoke scorer σ hp hc ho, if_neg (by simp [hexit]),
      if_pos (by simp [ho, hno])]
  · intro scorer σ ho hno
    rw [af3_score_step, run_ipsae_af3, if_neg ho]
    by_cases hin : ¬(jsonNameA ∈ σ.files) ∨ ¬(cifNameA ∈ σ.files)
    · rw [if_pos hin, if_neg ho]
    · rw [if_neg hin]
      have : ¬(outNameA ∈ σ.files ++ (scorer σ.files).2) := by simp [ho, hno]
      rw [if_neg this]

/-- C8 witness: a scorer that exits zero without creating the output file
    yields no path in either pipeline. -/
theorem C8_witness :
    run_ipsae_boltz (fun _ => (true, ["junk"])) ⟨[paeNameB, cifNameB], 0⟩
      = (none, ⟨[paeNameB, cifNameB, "junk"], 1⟩)
    ∧ (af3_score_step (fun _ => (true, ["junk"])) ⟨[jsonNameA, cifNameA], 0⟩).1
      = none :=
  ⟨C8_output_postcondition.1 (fun _ => (true, ["junk"])) ⟨[paeNameB, cifNameB], 0⟩
      (by decide) (by decide) (by decide) (by decide) (by decide),
   C8_output_postcondition.2 (fun _ => (true, ["junk"])) ⟨[jsonNameA, cifNameA], 0⟩
      (by decide) (by decide)⟩

theorem dictGet_concat (extra : List (String × PyVal)) (key : String) (v : PyVal)
    (k : String) :
    dictGet (extra ++ [(key, v)]) k = if key = k then some v else dictGet extra k := by
  rw [dictGet, List.reverse_append]
  by_cases h : key = k
  · simp [h, List.find?]
  · simp only [List.reverse_singleton, List.singleton_append, List.find?]
    simp [h, dictGet]

theorem dictGet_singleton (k : String) (v : PyVal) : dictGet [(k, v)] k = some v := by
  simp [dictGet, List.find?]

/-- C4 (amended): the identifier field of a chain entry may be a bare
    string scalar or the corresponding one-element list interchangeably in
    `parse_chain_b_sequence` (boltz2 YAML) and in `extract_BC_sequences`
    (AF3_AB JSON) — both normalise to membership — but not in
    `find_chain_b_sequence` (get_ipsae_AF3 JSON), which matches only the
    list encoding. -/
theorem C4_scalar_list_ids :
    (∀ (pre post : List PyVal) (s : String) (extra : List (String × PyVal)),
      chainBEntryLoop (pre ++ protEntry (.vstr s) extra :: post)
        = chainBEntryLoop (pre ++ protEntry (.vlist [.vstr s]) extra :: post))
    ∧ ∀ (pre post : List PyVal) (s : String) (extra : List (String × PyVal))
        (heavy light : PyVal),
      extractBCLoop (pre ++ protEntry (.vstr s) extra :: post) heavy light
        = extractBCLoop (pre ++ protEntry (.vlist [.vstr s]) extra :: post) heavy light := by
  constructor
  · intro pre post s extra
    induction pre with
    | nil =>
      simp [chainBEntryLoop, protEntry, pyGetAttr, dictGet_singleton,
        dictGet_concat, pyStr]
    | cons e t ih =>
      simp only [List.cons_append, chainBEntryLoop, List.append_eq, ih]
  · intro pre post s extra heavy light
    induction pre generalizing heavy light with
    | nil =>
      simp [extractBCLoop, protEntry, pyGetAttr, dictGet_singleton,
        dictGet_concat, pyStr, pyInStr]
    | cons e t ih =>
      simp only [List.cons_append, extractBCLoop, List.append_eq, ih]

/-- C4 witness: a concrete document gives the same extraction result with
    a scalar id and with the one-element list id, in both normalising
    routines. -/
theorem C4_witness :
    chainBEntryLoop [protEntry (.vstr "B") [("sequence", .vstr "QK")]]
      = chainBEntryLoop [protEntry (.vlist [.vstr "B"]) [("sequence", .vstr "QK")]]
    ∧ extractBCLoop [protEntry (.vstr "B") [("sequence", .vstr "QK")]]
        (.vstr "") (.vstr "")
      = extractBCLoop [protEntry (.vlist [.vstr "B"]) [("sequence", .vstr "QK")]]
        (.vstr "") (.vstr "") :=
  ⟨C4_scalar_list_ids.1 [] [] "B" [("sequence", .vstr "QK")],
   C4_scalar_list_ids.2 [] [] "B" [("sequence", .vstr "QK")] (.vstr "") (.vstr "")⟩

/-- C4 counterexample: `find_chain_b_sequence` does not treat the scalar
    `"B"` like `["B"]`: on the scalar encoding it finds nothing, on the
    list encoding it returns the sequence (which `parse_chain_b_sequence`
    already returns for the scalar form). -/
theorem C4_counterexample :
    find_chain_b_sequence
        (.vdict [("sequences",
          .vlist [protEntry (.vstr "B") [("sequence", .vstr "QQ")]])])
      = .ok none
    ∧ find_chain_b_sequence
        (.vdict [("sequences",
          .vlist [protEntry (.vlist [.vstr "B"]) [("sequence", .vstr "QQ")]])])
      = .ok (some "QQ")
    ∧ parse_chain_b_sequence
        (.vdict [("sequences",
          .vlist [protEntry (.vstr "B") [("sequence", .vstr "QQ")]])])
      = .ok (some "QQ") :=
  ⟨rfl, rfl, rfl⟩

theorem bNameLt_of_left {x y : String}
    (hx : (natural_binder_sort_key x).isLeft = true)
    (hy : (natural_binder_sort_key y).isLeft = true) :
    bNameLt x y = some (decide (bval x < bval y)) := by
  cases hkx : natural_binder_sort_key x with
  | inl i =>
    cases hky : natural_binder_sort_key y with
    | inl j => simp [bNameLt, bKeyLt, bval, hkx, hky]
    | inr t => rw [hky] at hy; simp at hy
  | inr s => rw [hkx] at hx; simp at hx

theorem insertOpt_left (x : String) (l : List String)
    (hx : (natural_binder_sort_key x).isLeft = true)
    (hl : ∀ y ∈ l, (natural_binder_sort_key y).isLeft = true)
    (hs : l.Pairwise fun a b => bval a ≤ bval b) :
    ∃ m, insertOpt bNameLt x l = some m
      ∧ m.Pairwise (fun a b => bval a ≤ bval b) ∧ m.Perm (x :: l) := by
  induction l with
  | nil => exact ⟨[x], rfl, by simp, List.Perm.refl _⟩
  | cons y ys ih =>
    have hy := hl y (List.mem_cons_self y ys)
    have hys : ∀ z ∈ ys, (natural_binder_sort_key z).isLeft = true :=
      fun z hz => hl z (List.mem_cons_of_mem y hz)
    rw [List.pairwise_cons] at hs
    obtain ⟨hyz, hp⟩ := hs
    by_cases hcmp : bval x < bval y
    · have hdec : decide (bval x < bval y) = true := decide_eq_true hcmp
      refine ⟨x :: y :: ys, ?_, ?_, List.Perm.refl _⟩
      · simp [insertOpt, bNameLt_of_left hx hy, hdec]
      · rw [List.pairwise_cons]
        refine ⟨?_, List.pairwise_cons.mpr ⟨hyz, hp⟩⟩
        intro z hz
        rcases List.mem_cons.mp hz with rfl | hz2
        · exact le_of_lt hcmp
        · exact le_trans (le_of_lt hcmp) (hyz z hz2)
    · have hdec : decide (bval x < bval y) = false := decide_eq_false hcmp
      obtain ⟨m, hm, hmp, hperm⟩ := ih hys hp
      refine ⟨y :: m, ?_, ?_, ?_⟩
      · simp [insertOpt, bNameLt_of_left hx hy, hdec, hm]
      · rw [List.pairwise_cons]
        refine ⟨?_, hmp⟩
        intro z hz
        have hz2 := hperm.mem_iff.mp hz
        rcases List.mem_cons.mp hz2 with rfl | hz3
        · exact le_of_not_lt hcmp
        · exact hyz z hz3
      · exact (hperm.cons y).trans (List.Perm.swap x y ys)

theorem sortOpt_left (names : List String) (acc : List String)
    (hn : ∀ x ∈ names, (natural_binder_sort_key x).isLeft = true)
    (ha : ∀ y ∈ acc, (natural_binder_sort_key y).isLeft = true)
    (hacc : acc.Pairwise fun a b => bval a ≤ bval b) :
    ∃ out, names.foldl (sortStep bNameLt) (some acc) = some out
      ∧ out.Pairwise (fun a b => bval a ≤ bval b) ∧ out.Perm (acc ++ names) := by
  induction names generalizing acc with
  | nil => exact ⟨acc, rfl, hacc, by simp⟩
  | cons x xs ih =>
    obtain ⟨m, hm, hmp, hperm⟩ :=
      insertOpt_left x acc (hn x (List.mem_cons_self x xs)) ha hacc
    have hm2 : ∀ y ∈ m, (natural_binder_sort_key y).isLeft = true := by
      intro y hy
      rcases List.mem_cons.mp (hperm.mem_iff.mp hy) with rfl | hy2
      · exact hn y (List.mem_cons_self y xs)
      · exact ha y hy2
    obtain ⟨out, hout, houtp, houtperm⟩ :=
      ih m (fun z hz => hn z (List.mem_cons_of_mem x hz)) hm2 hmp
    refine ⟨out, ?_, houtp, ?_⟩
    · rw [List.foldl_cons]
      simpa [sortStep, hm] using hout
    · exact houtperm.trans ((hperm.append_right xs).trans List.perm_middle.symm)

/-- C5 (amended): the boltz2 enumeration sorts any list of names that all
    carry a trailing integer suffix into nondecreasing order of that
    integer's value (so `binder_1, binder_10, binder_2` enumerate as
    `binder_1, binder_2, binder_10`, also under the AF3 key); but names
    without a trailing integer do not sort after the numeric ones: under
    the AF3 key they are compared chunk-wise and can sort before, and
    under the boltz2 key mixing the two kinds raises a comparison type
    error. -/
theorem C5_natural_ordering :
    (∀ names : List String,
      (∀ x ∈ names, (natural_binder_sort_key x).isLeft = true) →
      ∃ out, pySortedB names = some out
        ∧ out.Pairwise (fun a b => bval a ≤ bval b) ∧ out.Perm names)
    ∧ pySortedB ["binder_1", "binder_10", "binder_2"]
      = some ["binder_1", "binder_2", "binder_10"]
    ∧ pySortedA ["binder_1", "binder_10", "binder_2"]
      = some ["binder_1", "binder_2", "binder_10"] := by
  refine ⟨?_, by decide, by decide⟩
  intro names hn
  obtain ⟨out, hout, hp, hperm⟩ := sortOpt_left names [] hn (by simp) (by simp)
  exact ⟨out, hout, hp, by simpa using hperm⟩

/-- C5 witness: a concrete all-numeric list sorts into numeric order. -/
theorem C5_witness :
    ∃ out, pySortedB ["binder_2", "binder_1"] = some out
      ∧ out.Pairwise (fun a b => bval a ≤ bval b)
      ∧ out.Perm ["binder_2", "binder_1"] :=
  C5_natural_ordering.1 ["binder_2", "binder_1"] (by decide)

/-- C5 counterexample: the name `binder_` has no trailing integer, yet the
    AF3 key sorts it before `binder_1` (not after), and the boltz2 key
    cannot sort the pair at all (mixed `int`/`str` comparison). -/
theorem C5_counterexample :
    pySortedA ["binder_1", "binder_"] = some ["binder_", "binder_1"]
    ∧ pySortedB ["binder_1", "binder_"] = none := by
  constructor <;> decide

end FunFolding

